import Mathlib

/-!
Verification of the Mach-O introspection library (`macho.c` / `macho.h`).

Modelling conventions (shallow embedding):

* The library targets a 64-bit host: `size_t` and `uintptr_t` are 64 bits
  wide, and all address arithmetic in the C code is performed in
  `uint64_t`/`size_t`, i.e. modulo `2^64`.  Machine words are modelled as
  `Nat` with explicit reduction modulo `2^64` (`add64`, `sub64`) at the
  operations where the C code can wrap around.
* The two header widths (`struct mach_header` / `struct mach_header_64`)
  agree on the layout of every field the library reads (`magic`,
  `sizeofcmds`), and the `MACHO_STRUCT_FIELD` macro hides the width of all
  other structures, always widening the field to `uint64_t`/`size_t`.  The
  structured views below therefore store each field once, as a `Nat`; only
  the fields actually read by the verified operations are modelled.
* Pointers into the image are modelled either as byte offsets or as
  structured views of the record they point at; the byte contents of the
  mapped file are a `List Nat` of byte values.  The segment list of an
  image stands for the sub-sequence of load commands whose tag is the
  width-appropriate `LC_SEGMENT`/`LC_SEGMENT_64`, in command order, as
  produced by `macho_next_segment`.
* The string table is the `strsize` bytes at `stroff`; it is modelled as
  the list `strings`, whose length plays the role of `symtab->strsize`.
  Likewise `syms` models the `nsyms` `nlist` records at `symoff`.
-/

/-- `2 ^ 64`, the modulus of `uint64_t`/`size_t` arithmetic. -/
def U64MOD : Nat := 2 ^ 64

/-- `(uint64_t)(-1)` alias `SIZE_MAX`, the sentinel value used by the code. -/
def U64MAX : Nat := U64MOD - 1

/-- `uint64_t` addition. -/
def add64 (a b : Nat) : Nat := (a + b) % U64MOD

/-- `uint64_t` subtraction; agrees with C unsigned subtraction for
`a, b < 2^64`. -/
def sub64 (a b : Nat) : Nat := (a + U64MOD - b) % U64MOD

/-- `MH_MAGIC`. -/
def MH_MAGIC : Nat := 0xfeedface

/-- `MH_MAGIC_64`. -/
def MH_MAGIC_64 : Nat := 0xfeedfacf

/-- `sizeof(struct mach_header)`: seven 32-bit fields. -/
def mach_header_size : Nat := 28

/-- `sizeof(struct mach_header_64)`: eight 32-bit fields. -/
def mach_header_64_size : Nat := 32

/-- `N_STAB` mask from `<mach-o/nlist.h>`. -/
def N_STAB : Nat := 0xe0

/-- `N_TYPE` mask. -/
def N_TYPE : Nat := 0x0e

/-- `N_UNDF` type. -/
def N_UNDF : Nat := 0x0

/-- `N_SECT` type. -/
def N_SECT : Nat := 0xe

/-- `NO_SECT` sentinel section index. -/
def NO_SECT : Nat := 0

/-- `VM_PROT_EXECUTE` bit. -/
def VM_PROT_EXECUTE : Nat := 0x4

/-- `enum macho_result`. -/
inductive macho_result where
  | success
  | error
  | notFound
deriving DecidableEq

/-- The two header fields `macho_validate` reads.  They sit at the same
offsets in `struct mach_header` and `struct mach_header_64`, so one record
serves both widths. -/
structure mach_header where
  magic : Nat
  sizeofcmds : Nat
deriving DecidableEq

/-- `macho_validate_32` (macho.c:142-158). -/
def macho_validate_32 (mh : mach_header) (size : Nat) : macho_result :=
  if mh.magic ≠ MH_MAGIC then .error
  else if size < mach_header_size then .error
  else if size < mh.sizeofcmds then .error
  else .success

/-- `macho_validate_64` (macho.c:160-176). -/
def macho_validate_64 (mh : mach_header) (size : Nat) : macho_result :=
  if mh.magic ≠ MH_MAGIC_64 then .error
  else if size < mach_header_64_size then .error
  else if size < mh.sizeofcmds then .error
  else .success

/-- `macho_validate` (macho.c:178-193). -/
def macho_validate (mh : mach_header) (size : Nat) : macho_result :=
  if size < mach_header_size then .error
  else if mh.magic = MH_MAGIC then macho_validate_32 mh size
  else if mh.magic = MH_MAGIC_64 then macho_validate_64 mh size
  else .error

/-- The data `macho_next_load_command` consumes: the header's declared
command-table byte length, and the `cmdsize` field of the load command
located at a given byte offset from the start of the command table
(`image start + header size`).  Offsets stand for the C pointers relative
to `lc_start`. -/
structure LCImage where
  sizeofcmds : Nat
  cmdsizeAt : Nat → Nat

/-- `macho_next_load_command` (macho.c:195-208), with load-command
pointers expressed as byte offsets from `lc_start`. -/
def macho_next_load_command (img : LCImage) (lc : Option Nat) : Option Nat :=
  let lc' := match lc with
    | none => 0
    | some off => off + img.cmdsizeAt off
  if img.sizeofcmds ≤ lc' then none else some lc'

/-- The cursor obtained after `k + 1` calls of `macho_next_load_command`
starting from `NULL`. -/
def lcIter (img : LCImage) : Nat → Option Nat
  | 0 => macho_next_load_command img none
  | k + 1 =>
    match lcIter img k with
    | none => none
    | some off => macho_next_load_command img (some off)

/-- The list of command offsets produced by iterating
`macho_next_load_command` from `NULL`, cut off after `fuel` steps. -/
def lcListAux (img : LCImage) : Nat → Option Nat → List Nat
  | 0, _ => []
  | fuel + 1, cur =>
    match macho_next_load_command img cur with
    | none => []
    | some off => off :: lcListAux img fuel (some off)

/-- `struct section` / `struct section_64` fields read by the library
(`section` is a Lean keyword, hence the `_t` suffix). -/
structure section_t where
  addr : Nat
  size : Nat
deriving DecidableEq

/-- `struct segment_command` / `struct segment_command_64` fields read by
the library, together with the run of section records that follows the
segment command in the command table. -/
structure segment_command where
  vmaddr : Nat
  vmsize : Nat
  fileoff : Nat
  filesize : Nat
  initprot : Nat
  sections : List section_t
deriving DecidableEq

/-- `struct macho`: the mapped file bytes plus the image's segment
commands in command order (the sub-sequence of load commands delivered by
`macho_next_segment`). -/
structure macho where
  data : List Nat
  segments : List segment_command
deriving DecidableEq

/-- `macho_segment_containing_address` (macho.c:494-508): first segment
in command order with `vmaddr <= addr < vmaddr + vmsize`. -/
def macho_segment_containing_address (m : macho) (addr : Nat) :
    Option segment_command :=
  m.segments.find? (fun sc =>
    decide (sc.vmaddr ≤ addr ∧ addr < add64 sc.vmaddr sc.vmsize))

/-- `macho_section_containing_address` (macho.c:510-526): first section
of the given segment with `addr <= addr < addr + size`. -/
def macho_section_containing_address (sc : segment_command) (addr : Nat) :
    Option section_t :=
  sc.sections.find? (fun s =>
    decide (s.addr ≤ addr ∧ addr < add64 s.addr s.size))

/-- `guess_symbol_size` (macho.c:58-87).  `next = U64MAX` encodes the
C sentinel `(uint64_t)(-1)`. -/
def guess_symbol_size (m : macho) (addr next : Nat) : Nat :=
  let size0 : Nat := if next ≠ U64MAX then sub64 next addr else U64MAX
  let size1 : Nat :=
    match macho_segment_containing_address m addr with
    | none => size0
    | some sc =>
      let sizeA : Nat :=
        match macho_section_containing_address sc addr with
        | none => size0
        | some sect =>
          let sect_limited_size := sub64 (add64 sect.addr sect.size) addr
          if sect_limited_size < size0 then sect_limited_size else size0
      let segment_limited_size := sub64 (add64 sc.vmaddr sc.vmsize) addr
      if segment_limited_size < sizeA then segment_limited_size else sizeA
  if size1 = U64MAX then 0 else size1

/-- Spec-side description of the bounds `guess_symbol_size` is subject
to, in the order the code applies them: the next-symbol bound when one
exists, then the containing section's end and the containing segment's
end past the starting address.  Used to state C4/C5. -/
def guessBounds (m : macho) (addr next : Nat) : List Nat :=
  (if next ≠ U64MAX then [sub64 next addr] else []) ++
    match macho_segment_containing_address m addr with
    | none => []
    | some sc =>
      (match macho_section_containing_address sc addr with
       | none => []
       | some sect => [sub64 (add64 sect.addr sect.size) addr]) ++
        [sub64 (add64 sc.vmaddr sc.vmsize) addr]

/-- `struct nlist` / `struct nlist_64` fields read by the library. -/
structure nlist where
  n_strx : Nat
  n_type : Nat
  n_sect : Nat
  n_value : Nat
deriving DecidableEq

/-- `struct symtab_command`: the `nsyms` symbol records at `symoff` and
the `strsize` string-table bytes at `stroff`. -/
structure symtab_command where
  syms : List nlist
  strings : List Nat
deriving DecidableEq

/-- The null-terminated C string starting at byte offset `pos` of the
blob (the bytes up to the first `NUL`).  The blob is finite here, so a
read cannot run past its end; the C code shares that behaviour only when
the string is properly terminated inside the blob (a known limitation it
documents). -/
def readCString (blob : List Nat) (pos : Nat) : List Nat :=
  (blob.drop pos).takeWhile (fun c => c != 0)

/-- `macho_symtab_string` (macho.c:96-104); `none` models the `NULL`
return. -/
def macho_symtab_string (st : symtab_command) (strx : Nat) :
    Option (List Nat) :=
  if strx < 4 ∨ st.strings.length ≤ strx then none
  else some (readCString st.strings strx)

/-- `while (str < end && *str != 0) str++;` — the first offset `q ≥ pos`
holding a `NUL` byte, or the end of the blob. -/
def skipToNull (blob : List Nat) (pos : Nat) : Nat :=
  pos + ((blob.drop pos).takeWhile (fun c => c != 0)).length

/-- Outcome of one candidate comparison in
`macho_symtab_string_index`. -/
inductive ScanStep where
  | hitEnd
  | matched
  | mismatchAt (pos : Nat)
deriving DecidableEq

/-- The inner loop of `macho_symtab_string_index` (macho.c:123-138):
compare the name (followed by its terminating `NUL`) against the blob
bytes starting at `pos`.  `hitEnd` models `str >= end` (return 0),
`matched` models `*p == 0` (return `strx`), `mismatchAt` models
`*p != *str` with the offending blob offset. -/
def tryMatchAux (blob : List Nat) : Nat → List Nat → ScanStep
  | pos, nm =>
    if blob.length ≤ pos then .hitEnd
    else
      match nm with
      | [] => if blob.getD pos 0 = 0 then .matched else .mismatchAt pos
      | c :: rest =>
        if blob.getD pos 0 ≠ c then .mismatchAt pos
        else if c = 0 then .matched
        else tryMatchAux blob (pos + 1) rest

/-- The outer loop of `macho_symtab_string_index` (macho.c:120-139): try
a candidate offset; on mismatch skip to the end of the current blob
string and resume just past its `NUL`.  The candidate offset strictly
increases on every recursion and recursion requires the candidate to be
below the blob length, so `blob.length + 1` units of fuel are never
exhausted; the fuel-out branch returning 0 is dead code of the model. -/
def string_index_scan (blob : List Nat) (name : List Nat) :
    Nat → Nat → Nat
  | 0, _ => 0
  | fuel + 1, strx =>
    match tryMatchAux blob strx name with
    | .hitEnd => 0
    | .matched => strx
    | .mismatchAt pos => string_index_scan blob name fuel (skipToNull blob pos + 1)

/-- `macho_symtab_string_index` (macho.c:113-140): scan for `name`
starting at offset 4, returning the matching offset or 0. -/
def macho_symtab_string_index (st : symtab_command) (name : List Nat) : Nat :=
  string_index_scan st.strings name (st.strings.length + 1) 4

/-- `macho_next_symbol` (macho.c:336-347): least symbol value strictly
above `addr`, or the sentinel `U64MAX`. -/
def macho_next_symbol (st : symtab_command) (addr : Nat) : Nat :=
  st.syms.foldl
    (fun next nl => if addr < nl.n_value ∧ nl.n_value < next then nl.n_value else next)
    U64MAX

/-- `macho_guess_symbol_size` (macho.c:390-398); `symtab = none` models a
`NULL` symtab pointer. -/
def macho_guess_symbol_size (m : macho) (symtab : Option symtab_command)
    (addr : Nat) : Nat :=
  let next := match symtab with
    | none => U64MAX
    | some st => macho_next_symbol st addr
  guess_symbol_size m addr next

/-- Result of `macho_resolve_symbol` with its two out-parameters. -/
inductive ResolveSym where
  | notFound
  | error
  | success (addr : Nat) (size : Nat)
deriving DecidableEq

/-- Exit state of the entry loop in `macho_resolve_symbol`
(macho.c:359-376): early `MACHO_NOT_FOUND` return, early `MACHO_ERROR`
return, `break` with the first entry whose string index matches, or
falling off the loop without a match. -/
inductive SymLookup where
  | retNotFound
  | retError
  | found (nl : nlist)
  | nomatch
deriving DecidableEq

/-- The entry loop of `macho_resolve_symbol` (macho.c:359-376). -/
def resolve_symbol_loop (strx : Nat) : List nlist → SymLookup
  | [] => .nomatch
  | nl :: rest =>
    if nl.n_strx = strx then
      if nl.n_type &&& N_TYPE = N_UNDF then .retNotFound
      else if nl.n_type &&& N_TYPE ≠ N_SECT then .retError
      else .found nl
    else resolve_symbol_loop strx rest

/-- `macho_resolve_symbol` (macho.c:350-388). -/
def macho_resolve_symbol (m : macho) (st : symtab_command)
    (name : List Nat) : ResolveSym :=
  let strx := macho_symtab_string_index st name
  if strx = 0 then .notFound
  else
    match resolve_symbol_loop strx st.syms with
    | .retNotFound => .notFound
    | .retError => .error
    | .nomatch => .notFound
    | .found nl =>
      .success nl.n_value
        (guess_symbol_size m nl.n_value (macho_next_symbol st nl.n_value))

/-- Result of `macho_resolve_address` with its three out-parameters
(`name = none` models the `NULL` string pointer from
`macho_symtab_string`). -/
inductive ResolveAddr where
  | notFound
  | error
  | success (name : Option (List Nat)) (size : Nat) (offset : Nat)
deriving DecidableEq

/-- The entry loop of `macho_resolve_address` (macho.c:406-418): running
best entry, replaced when `(sym == NULL || sym_addr < n_value) &&
n_value <= addr`. -/
def resolve_address_find (addr : Nat) : List nlist → Option nlist → Option nlist
  | [], best => best
  | nl :: rest, best =>
    if nl.n_type &&& N_TYPE ≠ N_SECT then resolve_address_find addr rest best
    else if (match best with
             | none => true
             | some b => decide (b.n_value < nl.n_value)) &&
            decide (nl.n_value ≤ addr) then
      resolve_address_find addr rest (some nl)
    else resolve_address_find addr rest best

/-- `macho_resolve_address` (macho.c:400-439). -/
def macho_resolve_address (m : macho) (st : symtab_command) (addr : Nat) :
    ResolveAddr :=
  match resolve_address_find addr st.syms none with
  | none => .notFound
  | some sym =>
    if sym.n_sect = NO_SECT then .error
    else
      .success (macho_symtab_string st sym.n_strx)
        (guess_symbol_size m sym.n_value (macho_next_symbol st sym.n_value))
        (sub64 addr sym.n_value)

/-- Run a callback over a list of `(name, address)` pairs with the
`stop` protocol of `macho_for_each_symbol_fn`: the callback transforms a
client context and may request early termination. -/
def foldStop {σ : Type} (f : σ → List Nat → Nat → σ × Bool) :
    σ → List (List Nat × Nat) → σ
  | ctx, [] => ctx
  | ctx, (s, a) :: rest =>
    let r := f ctx s a
    if r.2 then r.1 else foldStop f r.1 rest

/-- `macho_for_each_symbol` (macho.c:309-328).  The C callback mutates a
`void *context` and returns a stop flag; here it transforms a context
value. -/
def macho_for_each_symbol {σ : Type} (st : symtab_command)
    (f : σ → List Nat → Nat → σ × Bool) (ctx : σ) : σ :=
  go st.syms ctx
where
  go : List nlist → σ → σ
    | [], c => c
    | nl :: rest, c =>
      if nl.n_type &&& N_STAB ≠ 0 ∨ nl.n_type &&& N_TYPE ≠ N_SECT then
        go rest c
      else
        match macho_symtab_string st nl.n_strx with
        | none => go rest c
        | some s =>
          let r := f c s nl.n_value
          if r.2 then r.1 else go rest r.1

/-- The `(name, address)` arguments `macho_for_each_symbol` passes to its
callback, collected in order by a callback that never stops. -/
def collectedSymbols (st : symtab_command) : List (List Nat × Nat) :=
  macho_for_each_symbol st (fun l s a => (l ++ [(s, a)], false)) []

/-- `memmem(hay, hay_len, pat, pat_len)`: offset of the first occurrence
of `pat` in `hay`, `none` when absent. -/
def memmem (hay pat : List Nat) : Option Nat :=
  if hay.length < pat.length then none
  else (List.range (hay.length - pat.length + 1)).find?
    (fun i => decide ((hay.drop i).take pat.length = pat))

/-- The file-backed bytes of a segment: `filesize` bytes at `fileoff`. -/
def segmentBytes (m : macho) (seg : segment_command) : List Nat :=
  (m.data.drop seg.fileoff).take seg.filesize

/-- The segment loop of `macho_search_data` (macho.c:446-466). -/
def search_data_loop (data : List Nat) (pat : List Nat) (minprot : Nat) :
    List segment_command → Option Nat
  | [] => none
  | seg :: rest =>
    if seg.initprot &&& minprot ≠ minprot then
      search_data_loop data pat minprot rest
    else
      match memmem ((data.drop seg.fileoff).take seg.filesize) pat with
      | none => search_data_loop data pat minprot rest
      | some off => some (add64 seg.vmaddr off)

/-- `macho_search_data` (macho.c:442-467); `some addr` models
`MACHO_SUCCESS` with out-parameter `addr`, `none` models
`MACHO_NOT_FOUND`. -/
def macho_search_data (m : macho) (pat : List Nat) (minprot : Nat) :
    Option Nat :=
  search_data_loop m.data pat minprot m.segments

/-! ## Claim C1: `macho_validate` success conditions -/

/-- Claim C1: for every input header and length, `macho_validate` returns
`MACHO_SUCCESS` iff the magic at offset 0 is one of the two recognized
width magics, the buffer length is at least the header size of the
detected width, and the declared `sizeofcmds` is at most the buffer
length; if any one of these conditions fails it returns `MACHO_ERROR`. -/
theorem claim_C1 (mh : mach_header) (size : Nat) :
    (macho_validate mh size = .success ↔
      ((mh.magic = MH_MAGIC ∧ mach_header_size ≤ size ∧ mh.sizeofcmds ≤ size) ∨
       (mh.magic = MH_MAGIC_64 ∧ mach_header_64_size ≤ size ∧ mh.sizeofcmds ≤ size))) ∧
    (macho_validate mh size = .error ↔
      ¬((mh.magic = MH_MAGIC ∧ mach_header_size ≤ size ∧ mh.sizeofcmds ≤ size) ∨
        (mh.magic = MH_MAGIC_64 ∧ mach_header_64_size ≤ size ∧ mh.sizeofcmds ≤ size))) := by
  unfold macho_validate macho_validate_32 macho_validate_64
  split_ifs <;>
    simp_all [MH_MAGIC, MH_MAGIC_64, mach_header_size, mach_header_64_size] <;>
    omega

/-! ## Claim C2: load-command iteration -/

/-- Every cursor returned by iterating `macho_next_load_command` lies
strictly below `sizeofcmds`, and (when every command below `sizeofcmds`
has a positive `cmdsize`) the `k`-th cursor is at least `k`. -/
lemma lcIter_bounds (img : LCImage)
    (hpos : ∀ off, off < img.sizeofcmds → 1 ≤ img.cmdsizeAt off) :
    ∀ k o, lcIter img k = some o → k ≤ o ∧ o < img.sizeofcmds := by
  intro k
  induction k with
  | zero =>
    intro o h
    unfold lcIter macho_next_load_command at h
    simp only at h
    split at h
    · simp at h
    · next hcond =>
      cases h
      omega
  | succ k ih =>
    intro o h
    unfold lcIter at h
    cases hk : lcIter img k with
    | none => rw [hk] at h; simp at h
    | some off =>
      rw [hk] at h
      unfold macho_next_load_command at h
      simp only at h
      split at h
      · simp at h
      · next hcond =>
        cases h
        have hb := ih off hk
        have hc := hpos off hb.2
        omega

/-- Claim C2 (amended): provided every load command at an offset below
`sizeofcmds` declares a positive `cmdsize`, iterating
`macho_next_load_command` from `NULL` reaches `NULL` after at most
`sizeofcmds` successful steps (the sequence is finite); every returned
command starts at an offset — i.e. at a cumulative sum of the declared
lengths of the preceding returned commands — strictly below `sizeofcmds`
(the final returned command's own declared length may extend past the
table); and the sequence is empty iff `sizeofcmds` is 0.  The unamended
sum bound fails because the last command is returned before its length is
checked, and without the positivity proviso a zero `cmdsize` makes the
iteration stall forever. -/
theorem claim_C2_amended (img : LCImage) (k o : Nat)
    (hpos : ∀ off, off < img.sizeofcmds → 1 ≤ img.cmdsizeAt off) :
    lcIter img img.sizeofcmds = none ∧
    (lcIter img k = some o → o < img.sizeofcmds) ∧
    (lcIter img 0 = none ↔ img.sizeofcmds = 0) := by
  refine ⟨?_, fun h => (lcIter_bounds img hpos k o h).2, ?_⟩
  · cases h : lcIter img img.sizeofcmds with
    | none => rfl
    | some o =>
      have := lcIter_bounds img hpos _ _ h
      omega
  · unfold lcIter macho_next_load_command
    simp only
    constructor
    · intro h
      split at h
      · omega
      · simp at h
    · intro h
      rw [if_pos (by omega)]

/-- A command table whose single command overshoots the declared table
length: `sizeofcmds = 8` but the command at offset 0 declares
`cmdsize = 100`. -/
def lcOvershootImage : LCImage := ⟨8, fun _ => 100⟩

/-- Claim C2 counterexample: on a validated image (the matching header
passes `macho_validate`) the complete command sequence — iteration
reaches `NULL` right after the first command — is `[offset 0]`, whose
single declared length is 100, and `100 > sizeofcmds = 8`: the sum of the
declared lengths of the returned commands exceeds the declared
command-table length, refuting the claim as stated. -/
theorem claim_C2_counterexample :
    macho_validate ⟨MH_MAGIC_64, 8⟩ 136 = .success ∧
    lcListAux lcOvershootImage 2 none = [0] ∧
    lcIter lcOvershootImage 1 = none ∧
    ((lcListAux lcOvershootImage 2 none).map lcOvershootImage.cmdsizeAt).sum = 100 ∧
    ¬(((lcListAux lcOvershootImage 2 none).map lcOvershootImage.cmdsizeAt).sum ≤
        lcOvershootImage.sizeofcmds) := by
  refine ⟨by decide, rfl, rfl, rfl, by decide⟩

/-- Witness for the amended claim C2 at a concrete image with two
commands of length 8 each. -/
theorem claim_C2_witness :
    lcIter ⟨16, fun _ => 8⟩ 16 = none ∧
    (lcIter ⟨16, fun _ => 8⟩ 0 = some 0 → (0 : Nat) < 16) ∧
    (lcIter ⟨16, fun _ => 8⟩ 0 = none ↔ (16 : Nat) = 0) :=
  claim_C2_amended ⟨16, fun _ => 8⟩ 0 0 (fun _ _ => by norm_num)

/-! ## Claim C4: the size-guessing heuristic -/

/-- `U64MOD` as a numeral. -/
lemma U64MOD_eq : U64MOD = 18446744073709551616 := by norm_num [U64MOD]

/-- `U64MAX` as a numeral. -/
lemma U64MAX_eq : U64MAX = 18446744073709551615 := by norm_num [U64MAX, U64MOD]

/-- `sub64` always yields a representable 64-bit value. -/
lemma sub64_lt (a b : Nat) : sub64 a b < U64MOD :=
  Nat.mod_lt _ (by have := U64MOD_eq; omega)

/-- Claim C4 (amended): `guess_symbol_size` returns the minimum of the
applicable bounds — next-symbol distance when a next symbol exists,
section end past the address when the address falls in a section of the
containing segment, segment end past the address when some segment
contains the address — except that a minimum equal to `2^64 - 1` (the
code's unbounded sentinel `(size_t)(-1)`) collapses to 0, as it does when
no bound applies at all. -/
theorem claim_C4_amended (m : macho) (addr next : Nat) :
    guess_symbol_size m addr next =
      if (guessBounds m addr next).foldr min U64MAX = U64MAX then 0
      else (guessBounds m addr next).foldr min U64MAX := by
  have h64 := U64MOD_eq
  have hMAX := U64MAX_eq
  have h1 : sub64 next addr < U64MOD := sub64_lt next addr
  unfold guess_symbol_size guessBounds
  rcases hseg : macho_segment_containing_address m addr with _ | sc
  · dsimp only
    by_cases hn : next = U64MAX
    · simp [hn]
    · simp only [ne_eq, hn, not_false_eq_true, if_true, List.append_nil,
        List.foldr_cons, List.foldr_nil]
      split_ifs <;> omega
  · dsimp only
    have h2 : sub64 (add64 sc.vmaddr sc.vmsize) addr < U64MOD := sub64_lt _ _
    rcases hsect : macho_section_containing_address sc addr with _ | sect
    · dsimp only
      by_cases hn : next = U64MAX
      · simp only [hn, ne_eq, not_true_eq_false, if_false, List.nil_append,
          List.foldr_cons, List.foldr_nil]
        split_ifs <;> omega
      · simp only [ne_eq, hn, not_false_eq_true, if_true, List.cons_append,
          List.nil_append, List.foldr_cons, List.foldr_nil]
        split_ifs <;> omega
    · dsimp only
      have h3 : sub64 (add64 sect.addr sect.size) addr < U64MOD := sub64_lt _ _
      by_cases hn : next = U64MAX
      · simp only [hn, ne_eq, not_true_eq_false, if_false, List.nil_append,
          List.cons_append, List.foldr_cons, List.foldr_nil]
        split_ifs <;> omega
      · simp only [ne_eq, hn, not_false_eq_true, if_true, List.cons_append,
          List.nil_append, List.foldr_cons, List.foldr_nil]
        split_ifs <;> omega

/-- An image with a single maximal segment `[0, 2^64 - 1)` and no
sections. -/
def hugeSegImage : macho := ⟨[], [⟨0, U64MAX, 0, 0, 0, []⟩]⟩

/-- Claim C4 counterexample: for `addr = 0` with no next symbol, the
segment `[0, 2^64 - 1)` of `hugeSegImage` contains the address, so bound
(c) applies and equals `2^64 - 1`; the claimed minimum is therefore
`2^64 - 1`, yet `guess_symbol_size` returns 0 (the bound collides with
the code's `(size_t)(-1)` sentinel), refuting the claim as stated. -/
theorem claim_C4_counterexample :
    guessBounds hugeSegImage 0 U64MAX = [U64MAX] ∧
    guess_symbol_size hugeSegImage 0 U64MAX = 0 ∧
    U64MAX ≠ 0 := by
  refine ⟨by decide, by decide, by decide⟩

/-! ## Claim C5: monotonicity of the size guess under tighter bounds -/

/-- Claim C5 (amended): for a fixed starting address the guess is
monotonically non-increasing under tighter bounds, provided the bounds
stay clear of the `(size_t)(-1)` sentinel: (i) supplying a closer genuine
next-symbol address (`addr ≤ n2 ≤ n1 < 2^64 - 1`) never increases the
result; (ii) shrinking the enclosing section — the section the
containment query resolves for the address, with the containing segment's
bound unchanged and below the sentinel — never increases the result.
Unamended, the claim fails because a bound introduced into a
configuration whose other bounds are absent or equal to the sentinel
raises the result from 0 to the new bound. -/
theorem claim_C5_amended (m m1 m2 : macho) (addr n1 n2 next : Nat)
    (sc1 sc2 : segment_command) (s1 s2 : section_t) :
    ((addr ≤ n2 → n2 ≤ n1 → n1 < U64MAX →
        guess_symbol_size m addr n2 ≤ guess_symbol_size m addr n1)) ∧
    (macho_segment_containing_address m1 addr = some sc1 →
     macho_segment_containing_address m2 addr = some sc2 →
     sc2.vmaddr = sc1.vmaddr → sc2.vmsize = sc1.vmsize →
     macho_section_containing_address sc1 addr = some s1 →
     macho_section_containing_address sc2 addr = some s2 →
     s2.addr = s1.addr → s2.size ≤ s1.size →
     addr < U64MOD → s1.addr < U64MOD → s1.size < U64MOD → s2.size < U64MOD →
     sub64 (add64 sc1.vmaddr sc1.vmsize) addr ≠ U64MAX →
     guess_symbol_size m2 addr next ≤ guess_symbol_size m1 addr next) := by
  have h64 := U64MOD_eq
  have hMAX := U64MAX_eq
  constructor
  · intro ha hb hc
    have hn2 : n2 ≠ U64MAX := by omega
    have hn1 : n1 ≠ U64MAX := by omega
    have hA12 : sub64 n2 addr ≤ sub64 n1 addr := by
      simp only [sub64, U64MOD_eq]
      omega
    have hA1U : sub64 n1 addr < U64MAX := by
      simp only [sub64, U64MOD_eq]
      omega
    simp only [guess_symbol_size]
    rcases hseg : macho_segment_containing_address m addr with _ | sc
    · dsimp only
      split_ifs <;> omega
    · dsimp only
      rcases hsect : macho_section_containing_address sc addr with _ | sect
      · dsimp only
        split_ifs <;> omega
      · dsimp only
        split_ifs <;> omega
  · intro hseg1 hseg2 hva hvs hsect1 hsect2 hsa hss haddr h1a h1s h2s hcs
    have hf1 : s1.addr ≤ addr ∧ addr < add64 s1.addr s1.size := by
      have h := List.find?_some (show sc1.sections.find? _ = some s1 from hsect1)
      simpa using h
    have hf2 : s2.addr ≤ addr ∧ addr < add64 s2.addr s2.size := by
      have h := List.find?_some (show sc2.sections.find? _ = some s2 from hsect2)
      simpa using h
    rw [hsa] at hf2
    have hBB : sub64 (add64 s1.addr s2.size) addr ≤ sub64 (add64 s1.addr s1.size) addr := by
      simp only [add64, U64MOD_eq] at hf1 hf2
      simp only [sub64, add64, U64MOD_eq]
      omega
    have hCC : sub64 (add64 sc1.vmaddr sc1.vmsize) addr < U64MAX := by
      have h := sub64_lt (add64 sc1.vmaddr sc1.vmsize) addr
      omega
    simp only [guess_symbol_size, hseg1, hseg2, hsect1, hsect2, hva, hvs, hsa]
    split_ifs <;> omega

/-- An image with no segments at all. -/
def emptyImage : macho := ⟨[], []⟩

/-- Claim C5 counterexample: with no segments and no next symbol the
guess for `addr = 0` is 0; adding a (closer) next-symbol bound at 5
raises the result to 5 — introducing a tighter bound increased the
returned size, refuting the claim as stated. -/
theorem claim_C5_counterexample :
    guess_symbol_size emptyImage 0 U64MAX = 0 ∧
    guess_symbol_size emptyImage 0 5 = 5 ∧
    ¬(guess_symbol_size emptyImage 0 5 ≤ guess_symbol_size emptyImage 0 U64MAX) := by
  refine ⟨by decide, by decide, by decide⟩

/-- Segment and section data for the claim C5 witness: the same segment
`[0, 1000)` with its single section shrunk from `[0, 100)` to `[0, 50)`. -/
def sectWideImage : macho := ⟨[], [⟨0, 1000, 0, 0, 0, [⟨0, 100⟩]⟩]⟩

/-- The same image with the section shrunk. -/
def sectNarrowImage : macho := ⟨[], [⟨0, 1000, 0, 0, 0, [⟨0, 50⟩]⟩]⟩

/-- Witness for the amended claim C5: both monotonicity statements at
concrete inputs (next-symbol bounds 20 ≤ 30 at address 10; a section
shrunk from 100 to 50 bytes around address 10). -/
theorem claim_C5_witness :
    guess_symbol_size sectWideImage 10 20 ≤ guess_symbol_size sectWideImage 10 30 ∧
    guess_symbol_size sectNarrowImage 10 U64MAX ≤ guess_symbol_size sectWideImage 10 U64MAX := by
  constructor
  · exact (claim_C5_amended sectWideImage sectWideImage sectNarrowImage 10 30 20 U64MAX
      ⟨0, 1000, 0, 0, 0, [⟨0, 100⟩]⟩ ⟨0, 1000, 0, 0, 0, [⟨0, 50⟩]⟩ ⟨0, 100⟩ ⟨0, 50⟩).1
      (by decide) (by decide) (by decide)
  · exact (claim_C5_amended sectWideImage sectWideImage sectNarrowImage 10 30 20 U64MAX
      ⟨0, 1000, 0, 0, 0, [⟨0, 100⟩]⟩ ⟨0, 1000, 0, 0, 0, [⟨0, 50⟩]⟩ ⟨0, 100⟩ ⟨0, 50⟩).2
      (by decide) (by decide) (by decide) (by decide) (by decide) (by decide)
      (by decide) (by decide) (by decide) (by decide) (by decide) (by decide)
      (by decide)

/-! ## Claims C6 and C9: address resolution -/

/-- The best-entry scan distributes over list append. -/
lemma raf_append (addr : Nat) (l1 l2 : List nlist) (best : Option nlist) :
    resolve_address_find addr (l1 ++ l2) best =
      resolve_address_find addr l2 (resolve_address_find addr l1 best) := by
  induction l1 generalizing best with
  | nil => rfl
  | cons nl rest ih =>
    simp only [List.cons_append, resolve_address_find]
    split_ifs <;> apply ih

/-- A best entry at least as high as every qualifying value in the rest
of the list is never replaced. -/
lemma raf_keep (addr : Nat) (l : List nlist) (b : nlist)
    (h : ∀ nl ∈ l, nl.n_type &&& N_TYPE = N_SECT → nl.n_value ≤ addr →
      nl.n_value ≤ b.n_value) :
    resolve_address_find addr l (some b) = some b := by
  induction l with
  | nil => rfl
  | cons nl rest ih =>
    simp only [resolve_address_find]
    split_ifs with h1 h2
    · exact ih fun x hx => h x (List.mem_cons_of_mem _ hx)
    · exfalso
      simp only [Bool.and_eq_true, decide_eq_true_eq] at h2
      have hx := h nl (List.mem_cons_self _ _) (by omega) h2.2
      omega
    · exact ih fun x hx => h x (List.mem_cons_of_mem _ hx)

/-- Scanning entries whose qualifying values stay below `V` keeps the
best entry below `V` (or absent). -/
lemma raf_inv (addr V : Nat) (l : List nlist)
    (hl : ∀ nl ∈ l, nl.n_type &&& N_TYPE = N_SECT → nl.n_value ≤ addr →
      nl.n_value < V) :
    ∀ best, (best = none ∨ ∃ b, best = some b ∧ b.n_value < V) →
      (resolve_address_find addr l best = none ∨
       ∃ b, resolve_address_find addr l best = some b ∧ b.n_value < V) := by
  induction l with
  | nil => intro best hbest; simpa [resolve_address_find] using hbest
  | cons nl rest ih =>
    intro best hbest
    simp only [resolve_address_find]
    split_ifs with h1 h2
    · exact ih (fun x hx => hl x (List.mem_cons_of_mem _ hx)) best hbest
    · refine ih (fun x hx => hl x (List.mem_cons_of_mem _ hx)) (some nl) ?_
      right
      refine ⟨nl, rfl, ?_⟩
      simp only [Bool.and_eq_true, decide_eq_true_eq] at h2
      exact hl nl (List.mem_cons_self _ _) (by omega) h2.2
    · exact ih (fun x hx => hl x (List.mem_cons_of_mem _ hx)) best hbest

/-- A qualifying head with a satisfied take-condition becomes the new
best entry. -/
lemma raf_cons_take (addr : Nat) (l : List nlist) (nl : nlist)
    (best : Option nlist)
    (ht : nl.n_type &&& N_TYPE = N_SECT)
    (hcond : ((match best with
               | none => true
               | some b => decide (b.n_value < nl.n_value)) &&
              decide (nl.n_value ≤ addr)) = true) :
    resolve_address_find addr (nl :: l) best =
      resolve_address_find addr l (some nl) := by
  simp only [resolve_address_find]
  rw [if_neg (by simp [ht]), if_pos hcond]

/-- The scan selects the first entry achieving the maximal
section-relative value `≤ addr`. -/
lemma raf_first_max (addr : Nat) (pre post : List nlist) (S : nlist)
    (htype : S.n_type &&& N_TYPE = N_SECT)
    (hle : S.n_value ≤ addr)
    (hpre : ∀ nl ∈ pre, nl.n_type &&& N_TYPE = N_SECT → nl.n_value ≤ addr →
      nl.n_value < S.n_value)
    (hpost : ∀ nl ∈ post, nl.n_type &&& N_TYPE = N_SECT → nl.n_value ≤ addr →
      nl.n_value ≤ S.n_value) :
    resolve_address_find addr (pre ++ S :: post) none = some S := by
  rw [raf_append]
  rcases raf_inv addr S.n_value pre hpre none (Or.inl rfl) with hb | ⟨b, hb, hblt⟩
  · rw [hb, raf_cons_take addr post S none htype (by simp [hle])]
    exact raf_keep addr post S hpost
  · rw [hb, raf_cons_take addr post S (some b) htype (by simp [hle, hblt])]
    exact raf_keep addr post S hpost

/-- Subtracting an address from itself gives offset 0. -/
lemma sub64_self (a : Nat) : sub64 a a = 0 := by
  simp only [sub64, U64MOD_eq]
  omega

/-- Claim C6 (amended): for every image and symtab containing an entry
`S` whose type is section-relative (`N_TYPE` bits equal `N_SECT`), whose
section index is not the `NO_SECT` sentinel, whose address is `A`, and
such that no other entry has address `A`, `macho_resolve_address` at `A`
succeeds and returns `S`'s name — the string-table string at `S`'s string
index — together with the guessed size and offset 0.  Unamended the claim
fails: a type-section-relative entry with `n_sect == NO_SECT` makes
`macho_resolve_address` return `MACHO_ERROR` instead. -/
theorem claim_C6_amended (m : macho) (st : symtab_command) (A : Nat)
    (pre post : List nlist) (S : nlist)
    (hsplit : st.syms = pre ++ S :: post)
    (htype : S.n_type &&& N_TYPE = N_SECT)
    (hval : S.n_value = A)
    (hpre : ∀ nl ∈ pre, nl.n_value ≠ A)
    (hpost : ∀ nl ∈ post, nl.n_value ≠ A)
    (hsect : S.n_sect ≠ NO_SECT) :
    macho_resolve_address m st A =
      .success (macho_symtab_string st S.n_strx)
        (guess_symbol_size m S.n_value (macho_next_symbol st S.n_value))
        0 := by
  have hfind : resolve_address_find A st.syms none = some S := by
    rw [hsplit]
    refine raf_first_max A pre post S htype (by omega) ?_ ?_
    · intro nl hm ht hle
      have := hpre nl hm
      omega
    · intro nl hm ht hle
      have := hpost nl hm
      omega
  unfold macho_resolve_address
  rw [hfind]
  dsimp only
  rw [if_neg hsect, hval, sub64_self]

/-- A symbol table whose single entry is typed section-relative but
carries the `NO_SECT` sentinel section index. -/
def noSectSymtab : symtab_command := ⟨[⟨4, 14, 0, 256⟩], [0, 0, 0, 0, 97, 0]⟩

/-- Claim C6 counterexample: the single symtab entry is section-relative
by type (`n_type & N_TYPE = N_SECT`), sits at address 256, and no other
entry exists, yet `macho_resolve_address` at 256 returns `MACHO_ERROR`
(the entry's `n_sect` is `NO_SECT`), not success with its name and
offset 0. -/
theorem claim_C6_counterexample :
    (⟨4, 14, 0, 256⟩ : nlist).n_type &&& N_TYPE = N_SECT ∧
    noSectSymtab.syms = [⟨4, 14, 0, 256⟩] ∧
    macho_resolve_address emptyImage noSectSymtab 256 = .error := by
  refine ⟨by decide, rfl, by decide⟩

/-- A well-formed one-entry symbol table: name `"a"` at string offset 4,
section-relative, section 1, address 256. -/
def oneSymSymtab : symtab_command := ⟨[⟨4, 14, 1, 256⟩], [0, 0, 0, 0, 97, 0]⟩

/-- Witness for the amended claim C6 at a concrete one-entry symtab. -/
theorem claim_C6_witness :
    macho_resolve_address emptyImage oneSymSymtab 256 =
      .success (macho_symtab_string oneSymSymtab 4)
        (guess_symbol_size emptyImage 256 (macho_next_symbol oneSymSymtab 256))
        0 :=
  claim_C6_amended emptyImage oneSymSymtab 256 [] [] ⟨4, 14, 1, 256⟩ rfl
    (by decide) rfl (by simp) (by simp) (by decide)

/-- Claim C9 (amended): when several section-relative entries share the
same greatest address `≤ addr`, the scan of `macho_resolve_address`
selects the entry with the lowest symbol-table index (the strict
less-than comparison keeps the first entry encountered); when that
entry's section index is not the `NO_SECT` sentinel the function then
returns that entry's name, guessed size, and offset.  Unamended the claim
fails: if the winning entry carries `n_sect == NO_SECT` the function
returns `MACHO_ERROR` instead of the entry's data. -/
theorem claim_C9_amended (m : macho) (st : symtab_command) (addr : Nat)
    (pre post : List nlist) (S : nlist)
    (hsplit : st.syms = pre ++ S :: post)
    (htype : S.n_type &&& N_TYPE = N_SECT)
    (hle : S.n_value ≤ addr)
    (hpre : ∀ nl ∈ pre, nl.n_type &&& N_TYPE = N_SECT → nl.n_value ≤ addr →
      nl.n_value < S.n_value)
    (hpost : ∀ nl ∈ post, nl.n_type &&& N_TYPE = N_SECT → nl.n_value ≤ addr →
      nl.n_value ≤ S.n_value) :
    resolve_address_find addr st.syms none = some S ∧
    (S.n_sect ≠ NO_SECT →
      macho_resolve_address m st addr =
        .success (macho_symtab_string st S.n_strx)
          (guess_symbol_size m S.n_value (macho_next_symbol st S.n_value))
          (sub64 addr S.n_value)) := by
  have hfind : resolve_address_find addr st.syms none = some S := by
    rw [hsplit]
    exact raf_first_max addr pre post S htype hle hpre hpost
  refine ⟨hfind, fun hs => ?_⟩
  unfold macho_resolve_address
  rw [hfind]
  dsimp only
  rw [if_neg hs]

/-- Two section-relative entries sharing address 100; the first carries
the `NO_SECT` sentinel. -/
def tieSymtab : symtab_command :=
  ⟨[⟨4, 14, 0, 100⟩, ⟨4, 14, 1, 100⟩], [0, 0, 0, 0, 97, 0]⟩

/-- Claim C9 counterexample: both entries are section-relative and share
the greatest address `100 ≤ 100`; the scan indeed keeps the lowest-index
entry, but since that entry's `n_sect` is `NO_SECT`,
`macho_resolve_address` returns `MACHO_ERROR` rather than the selected
entry's name, guessed size, and offset, refuting the claim as stated. -/
theorem claim_C9_counterexample :
    resolve_address_find 100 tieSymtab.syms none = some ⟨4, 14, 0, 100⟩ ∧
    macho_resolve_address emptyImage tieSymtab 100 = .error := by
  refine ⟨by decide, by decide⟩

/-- Two valid section-relative entries sharing address 100. -/
def tieSymtabOk : symtab_command :=
  ⟨[⟨4, 14, 1, 100⟩, ⟨4, 14, 2, 100⟩], [0, 0, 0, 0, 97, 0]⟩

/-- Witness for the amended claim C9: with two tied entries the
lowest-index one is selected and, its section index being valid, its
data is returned. -/
theorem claim_C9_witness :
    resolve_address_find 100 tieSymtabOk.syms none = some ⟨4, 14, 1, 100⟩ ∧
    macho_resolve_address emptyImage tieSymtabOk 100 =
      .success (macho_symtab_string tieSymtabOk 4)
        (guess_symbol_size emptyImage 100 (macho_next_symbol tieSymtabOk 100))
        (sub64 100 100) := by
  have h := claim_C9_amended emptyImage tieSymtabOk 100 [] [⟨4, 14, 2, 100⟩]
    ⟨4, 14, 1, 100⟩ rfl (by decide) (by decide) (by simp)
    (by intro nl hm ht hle
        simp only [List.mem_singleton] at hm
        subst hm
        decide)
  exact ⟨h.1, h.2 (by decide)⟩

/-! ## Claim C3: symbol resolution by name -/

/-- The entry loop of `macho_resolve_symbol` acts on the first entry
whose string index matches, as computed by `List.find?`. -/
lemma resolve_symbol_loop_eq (strx : Nat) (l : List nlist) :
    resolve_symbol_loop strx l =
      match l.find? (fun x => decide (x.n_strx = strx)) with
      | none => .nomatch
      | some nl =>
        if nl.n_type &&& N_TYPE = N_UNDF then .retNotFound
        else if nl.n_type &&& N_TYPE ≠ N_SECT then .retError
        else .found nl := by
  induction l with
  | nil => rfl
  | cons nl rest ih =>
    simp only [resolve_symbol_loop]
    by_cases h : nl.n_strx = strx
    · rw [if_pos h, List.find?_cons_of_pos _ (by simp [h])]
    · rw [if_neg h, List.find?_cons_of_neg _ (by simp [h]), ih]

/-- Claim C3: `macho_resolve_symbol` returns `MACHO_NOT_FOUND` when the
name lookup in the string blob fails (index 0, the code's "absent"
result); otherwise it considers only the first (lowest-index) entry
whose string index equals the found index — `MACHO_NOT_FOUND` if that
entry's masked type is `N_UNDF`, `MACHO_ERROR` if its masked type is
neither `N_UNDF` nor `N_SECT`, and otherwise success with that entry's
address and guessed size; it also returns `MACHO_NOT_FOUND` when no
entry's string index matches the found index. -/
theorem claim_C3 (m : macho) (st : symtab_command) (name : List Nat)
    (nl : nlist) :
    (macho_symtab_string_index st name = 0 →
      macho_resolve_symbol m st name = .notFound) ∧
    (macho_symtab_string_index st name ≠ 0 →
      st.syms.find?
        (fun x => decide (x.n_strx = macho_symtab_string_index st name)) = none →
      macho_resolve_symbol m st name = .notFound) ∧
    (macho_symtab_string_index st name ≠ 0 →
      st.syms.find?
        (fun x => decide (x.n_strx = macho_symtab_string_index st name)) = some nl →
      ((nl.n_type &&& N_TYPE = N_UNDF →
          macho_resolve_symbol m st name = .notFound) ∧
       (nl.n_type &&& N_TYPE ≠ N_UNDF → nl.n_type &&& N_TYPE ≠ N_SECT →
          macho_resolve_symbol m st name = .error) ∧
       (nl.n_type &&& N_TYPE = N_SECT →
          macho_resolve_symbol m st name =
            .success nl.n_value
              (guess_symbol_size m nl.n_value (macho_next_symbol st nl.n_value))))) := by
  unfold macho_resolve_symbol
  dsimp only
  refine ⟨fun h0 => ?_, fun h0 hf => ?_, fun h0 hf => ?_⟩
  · rw [if_pos h0]
  · rw [if_neg h0, resolve_symbol_loop_eq, hf]
  · rw [if_neg h0, resolve_symbol_loop_eq, hf]
    dsimp only
    refine ⟨fun hU => ?_, fun hU hS => ?_, fun hS => ?_⟩
    · rw [if_pos hU]
    · rw [if_neg hU, if_pos hS]
    · rw [if_neg (show ¬(nl.n_type &&& N_TYPE = N_UNDF) by rw [hS]; decide),
        if_neg (show ¬(nl.n_type &&& N_TYPE ≠ N_SECT) by simp [hS])]

/-- Witness for claim C3: on a concrete one-entry symtab the name `"a"`
is found at string index 4, the first matching entry is section-relative,
and resolution succeeds with its address and guessed size. -/
theorem claim_C3_witness :
    macho_symtab_string_index oneSymSymtab [97] ≠ 0 ∧
    oneSymSymtab.syms.find?
      (fun x => decide (x.n_strx = macho_symtab_string_index oneSymSymtab [97])) =
        some ⟨4, 14, 1, 256⟩ ∧
    (⟨4, 14, 1, 256⟩ : nlist).n_type &&& N_TYPE = N_SECT ∧
    macho_resolve_symbol emptyImage oneSymSymtab [97] =
      .success 256
        (guess_symbol_size emptyImage 256 (macho_next_symbol oneSymSymtab 256)) := by
  have h0 : macho_symtab_string_index oneSymSymtab [97] ≠ 0 := by decide
  have hf : oneSymSymtab.syms.find?
      (fun x => decide (x.n_strx = macho_symtab_string_index oneSymSymtab [97])) =
        some ⟨4, 14, 1, 256⟩ := by decide
  have hS : (⟨4, 14, 1, 256⟩ : nlist).n_type &&& N_TYPE = N_SECT := by decide
  exact ⟨h0, hf, hS,
    ((claim_C3 emptyImage oneSymSymtab [97] ⟨4, 14, 1, 256⟩).2.2 h0 hf).2.2 hS⟩

/-! ## Claim C10: symbol enumeration callback hygiene -/

/-- The collecting callback never stops, so the run appends every visited
pair. -/
lemma foldStop_collector (l acc : List (List Nat × Nat)) :
    foldStop (fun l s a => (l ++ [(s, a)], false)) acc l = acc ++ l := by
  induction l generalizing acc with
  | nil => simp [foldStop]
  | cons p rest ih =>
    obtain ⟨s, a⟩ := p
    simp [foldStop, ih]

/-- The symbol loop equals a `foldStop` over the entries that pass the
type filter and have a string index inside `[4, strsize)`. -/
lemma forEach_go_eq {σ : Type} (st : symtab_command)
    (f : σ → List Nat → Nat → σ × Bool) :
    ∀ (l : List nlist) (ctx : σ),
      macho_for_each_symbol.go st f l ctx =
        foldStop f ctx (l.filterMap (fun nl =>
          if nl.n_type &&& N_STAB ≠ 0 ∨ nl.n_type &&& N_TYPE ≠ N_SECT then none
          else if nl.n_strx < 4 ∨ st.strings.length ≤ nl.n_strx then none
          else some (readCString st.strings nl.n_strx, nl.n_value))) := by
  intro l
  induction l with
  | nil => intro ctx; rfl
  | cons nl rest ih =>
    intro ctx
    simp only [macho_for_each_symbol.go, List.filterMap_cons]
    by_cases h1 : nl.n_type &&& N_STAB ≠ 0 ∨ nl.n_type &&& N_TYPE ≠ N_SECT
    · simp only [if_pos h1]
      exact ih ctx
    · by_cases h2 : nl.n_strx < 4 ∨ st.strings.length ≤ nl.n_strx
      · have hs : macho_symtab_string st nl.n_strx = none := by
          unfold macho_symtab_string
          rw [if_pos h2]
        simp only [if_neg h1, if_pos h2, hs]
        exact ih ctx
      · have hs : macho_symtab_string st nl.n_strx =
            some (readCString st.strings nl.n_strx) := by
          unfold macho_symtab_string
          rw [if_neg h2]
        simp only [if_neg h1, if_neg h2, hs]
        dsimp only [foldStop]
        split
        · rfl
        · exact ih _

/-- Claim C10: `macho_for_each_symbol` never invokes the callback with a
null name — any callback's run equals a run over `collectedSymbols`, and
the collected invocation list consists exactly of the entries that are
neither debug-type nor non-section-relative and whose string-table index
lies in `[4, strsize)`, each paired with the string-blob string at that
index (never a null pointer). -/
theorem claim_C10 (st : symtab_command) (σ : Type)
    (f : σ → List Nat → Nat → σ × Bool) (ctx : σ) :
    macho_for_each_symbol st f ctx = foldStop f ctx (collectedSymbols st) ∧
    collectedSymbols st =
      st.syms.filterMap (fun nl =>
        if nl.n_type &&& N_STAB ≠ 0 ∨ nl.n_type &&& N_TYPE ≠ N_SECT then none
        else if nl.n_strx < 4 ∨ st.strings.length ≤ nl.n_strx then none
        else some (readCString st.strings nl.n_strx, nl.n_value)) := by
  have hcol : collectedSymbols st =
      st.syms.filterMap (fun nl =>
        if nl.n_type &&& N_STAB ≠ 0 ∨ nl.n_type &&& N_TYPE ≠ N_SECT then none
        else if nl.n_strx < 4 ∨ st.strings.length ≤ nl.n_strx then none
        else some (readCString st.strings nl.n_strx, nl.n_value)) := by
    unfold collectedSymbols macho_for_each_symbol
    rw [forEach_go_eq]
    simpa using foldStop_collector _ []
  refine ⟨?_, hcol⟩
  unfold macho_for_each_symbol
  rw [forEach_go_eq, hcol]

/-! ## Claim C8: protection-filtered pattern search -/

/-- Any successful search result is produced by a qualifying segment:
one whose initial protection contains every requested bit, with the
pattern found in its file-backed bytes. -/
lemma search_data_loop_success (data pat : List Nat) (minprot a : Nat) :
    ∀ l : List segment_command,
      search_data_loop data pat minprot l = some a →
      ∃ seg ∈ l, seg.initprot &&& minprot = minprot ∧
        ∃ off, memmem ((data.drop seg.fileoff).take seg.filesize) pat = some off ∧
          a = add64 seg.vmaddr off := by
  intro l
  induction l with
  | nil => intro h; simp [search_data_loop] at h
  | cons seg rest ih =>
    intro h
    simp only [search_data_loop] at h
    split_ifs at h with h1
    · obtain ⟨s, hs, hrest⟩ := ih h
      exact ⟨s, List.mem_cons_of_mem _ hs, hrest⟩
    · revert h
      cases hm : memmem ((data.drop seg.fileoff).take seg.filesize) pat with
      | none =>
        intro h
        obtain ⟨s, hs, hrest⟩ := ih h
        exact ⟨s, List.mem_cons_of_mem _ hs, hrest⟩
      | some off =>
        intro h
        cases h
        exact ⟨seg, List.mem_cons_self _ _, by omega, off, hm, rfl⟩

/-- Segments failing the protection check contribute nothing: the search
over a list equals the search over its qualifying sub-list. -/
lemma search_data_loop_filter (data pat : List Nat) (minprot : Nat) :
    ∀ l : List segment_command,
      search_data_loop data pat minprot l =
        search_data_loop data pat minprot
          (l.filter (fun seg => decide (seg.initprot &&& minprot = minprot))) := by
  intro l
  induction l with
  | nil => rfl
  | cons seg rest ih =>
    by_cases h1 : seg.initprot &&& minprot = minprot
    · rw [List.filter_cons_of_pos (by simpa using h1)]
      simp only [search_data_loop, if_neg (show ¬seg.initprot &&& minprot ≠ minprot by simpa using h1)]
      cases hm : memmem ((data.drop seg.fileoff).take seg.filesize) pat with
      | none => exact ih
      | some off => rfl
    · rw [List.filter_cons_of_neg (by simpa using h1)]
      simp only [search_data_loop, if_pos (show seg.initprot &&& minprot ≠ minprot from h1)]
      exact ih

/-- Claim C8 (amended): every address `macho_search_data` returns is
derived from a segment whose initial protection contains every bit of the
required protection — it is that segment's `vmaddr` plus the offset of a
pattern match inside that segment's file-backed bytes — and segments
failing the protection check are skipped entirely (the search equals the
search over only the qualifying segments).  Unamended, the claim fails
for overlapping segments: the address coming from a qualifying segment
may simultaneously lie inside another segment that lacks execute
permission. -/
theorem claim_C8_amended (m : macho) (pat : List Nat) (minprot a : Nat) :
    (macho_search_data m pat minprot = some a →
      ∃ seg ∈ m.segments, seg.initprot &&& minprot = minprot ∧
        ∃ off, memmem (segmentBytes m seg) pat = some off ∧
          a = add64 seg.vmaddr off) ∧
    macho_search_data m pat minprot =
      search_data_loop m.data pat minprot
        (m.segments.filter (fun seg => decide (seg.initprot &&& minprot = minprot))) := by
  constructor
  · intro h
    obtain ⟨seg, hs, hrest⟩ := search_data_loop_success m.data pat minprot a m.segments h
    exact ⟨seg, hs, hrest⟩
  · exact search_data_loop_filter m.data pat minprot m.segments

/-- Two fully overlapping one-byte segments mapping the same file byte:
the first is readable and executable, the second readable only. -/
def overlapImage : macho :=
  ⟨[170], [⟨4096, 1, 0, 1, 5, []⟩, ⟨4096, 1, 0, 1, 1, []⟩]⟩

/-- Claim C8 counterexample: with required protection
`VM_PROT_EXECUTE`, the search returns 4096 (found in the executable
segment), but 4096 also lies inside the overlapping second segment,
whose initial protection lacks execute permission and whose bytes also
contain the pattern — refuting "never returns an address inside a
segment lacking execute permission" as stated. -/
theorem claim_C8_counterexample :
    macho_search_data overlapImage [170] VM_PROT_EXECUTE = some 4096 ∧
    (⟨4096, 1, 0, 1, 1, []⟩ : segment_command) ∈ overlapImage.segments ∧
    (⟨4096, 1, 0, 1, 1, []⟩ : segment_command).initprot &&& VM_PROT_EXECUTE ≠
      VM_PROT_EXECUTE ∧
    (⟨4096, 1, 0, 1, 1, []⟩ : segment_command).vmaddr ≤ 4096 ∧
    4096 < add64 (⟨4096, 1, 0, 1, 1, []⟩ : segment_command).vmaddr
      (⟨4096, 1, 0, 1, 1, []⟩ : segment_command).vmsize ∧
    memmem (segmentBytes overlapImage ⟨4096, 1, 0, 1, 1, []⟩) [170] = some 0 := by
  refine ⟨by decide, by decide, by decide, by decide, by decide, by decide⟩

/-- An image with a single executable segment containing the pattern. -/
def execImage : macho := ⟨[170], [⟨4096, 1, 0, 1, 5, []⟩]⟩

/-- Witness for the amended claim C8 at a concrete successful search. -/
theorem claim_C8_witness :
    macho_search_data execImage [170] VM_PROT_EXECUTE = some 4096 ∧
    (∃ seg ∈ execImage.segments, seg.initprot &&& VM_PROT_EXECUTE = VM_PROT_EXECUTE ∧
      ∃ off, memmem (segmentBytes execImage seg) [170] = some off ∧
        (4096 : Nat) = add64 seg.vmaddr off) :=
  ⟨by decide,
   (claim_C8_amended execImage [170] VM_PROT_EXECUTE 4096).1 (by decide)⟩

/-! ## Claim C7: string table round trip -/

/-- A name stored (with terminator) at `pos` makes the candidate
comparison succeed. -/
lemma tryMatchAux_matched_of_stored (blob : List Nat) :
    ∀ (name : List Nat) (pos : Nat),
      (∀ t, t < name.length → blob.getD (pos + t) 0 = name.getD t 0) →
      blob.getD (pos + name.length) 0 = 0 →
      pos + name.length < blob.length →
      (∀ c ∈ name, c ≠ 0) →
      tryMatchAux blob pos name = .matched
  | [], pos, hchars, hterm, hin, hnz => by
    unfold tryMatchAux
    dsimp only
    simp only [List.length_nil, Nat.add_zero] at hterm hin
    rw [if_neg (by omega), if_pos hterm]
  | c :: rest, pos, hchars, hterm, hin, hnz => by
    unfold tryMatchAux
    dsimp only
    simp only [List.length_cons] at hterm hin
    have h0 : blob.getD pos 0 = c := by
      have h := hchars 0 (by simp)
      simpa using h
    rw [if_neg (by omega), if_neg (by omega),
      if_neg (hnz c (List.mem_cons_self _ _))]
    refine tryMatchAux_matched_of_stored blob rest (pos + 1) ?_ ?_ (by omega) ?_
    · intro t ht
      have h := hchars (t + 1) (by simp only [List.length_cons]; omega)
      rw [show pos + (t + 1) = pos + 1 + t by omega] at h
      simpa using h
    · rw [show pos + 1 + rest.length = pos + (rest.length + 1) by omega]
      exact hterm
    · exact fun x hx => hnz x (List.mem_cons_of_mem _ hx)

/-- A `hitEnd` outcome means a (possibly empty) prefix of the name
matched and the comparison ran off the end of the blob. -/
lemma tryMatchAux_hitEnd (blob : List Nat) :
    ∀ (name : List Nat) (pos : Nat),
      tryMatchAux blob pos name = .hitEnd →
      ∃ k, k ≤ name.length ∧ blob.length ≤ pos + k ∧
        ∀ t, t < k → blob.getD (pos + t) 0 = name.getD t 0
  | [], pos, h => by
    unfold tryMatchAux at h
    dsimp only at h
    split_ifs at h with h1 h2
    exact ⟨0, by omega, by omega, fun t ht => by omega⟩
  | c :: rest, pos, h => by
    unfold tryMatchAux at h
    dsimp only at h
    split_ifs at h with h1 h2 h3
    · exact ⟨0, by omega, by omega, fun t ht => by omega⟩
    · obtain ⟨k, hk1, hk2, hk3⟩ := tryMatchAux_hitEnd blob rest (pos + 1) h
      refine ⟨k + 1, by simp only [List.length_cons]; omega, by omega, ?_⟩
      intro t ht
      cases t with
      | zero => simpa using (show blob.getD pos 0 = c by omega)
      | succ t =>
        have hh := hk3 t (by omega)
        rw [show pos + (t + 1) = pos + 1 + t by omega]
        simpa using hh

/-- A `mismatchAt` outcome pins the mismatch position inside the blob,
after a matched prefix of the name. -/
lemma tryMatchAux_mismatch (blob : List Nat) :
    ∀ (name : List Nat) (pos q : Nat),
      tryMatchAux blob pos name = .mismatchAt q →
      ∃ k, q = pos + k ∧ k ≤ name.length ∧ pos + k < blob.length ∧
        ∀ t, t < k → blob.getD (pos + t) 0 = name.getD t 0
  | [], pos, q, h => by
    unfold tryMatchAux at h
    dsimp only at h
    split_ifs at h with h1 h2
    cases h
    exact ⟨0, by omega, by omega, by omega, fun t ht => by omega⟩
  | c :: rest, pos, q, h => by
    unfold tryMatchAux at h
    dsimp only at h
    split_ifs at h with h1 h2 h3
    · cases h
      exact ⟨0, by omega, by omega, by omega, fun t ht => by omega⟩
    · obtain ⟨k, hk0, hk1, hk2, hk3⟩ := tryMatchAux_mismatch blob rest (pos + 1) q h
      refine ⟨k + 1, by omega, by simp only [List.length_cons]; omega, by omega, ?_⟩
      intro t ht
      cases t with
      | zero => simpa using (show blob.getD pos 0 = c by omega)
      | succ t =>
        have hh := hk3 t (by omega)
        rw [show pos + (t + 1) = pos + 1 + t by omega]
        simpa using hh

/-- A `matched` outcome means the full name followed by a `NUL` sits at
`pos`, inside the blob. -/
lemma tryMatchAux_matched (blob : List Nat) :
    ∀ (name : List Nat) (pos : Nat),
      (∀ c ∈ name, c ≠ 0) →
      tryMatchAux blob pos name = .matched →
      (∀ t, t < name.length → blob.getD (pos + t) 0 = name.getD t 0) ∧
      blob.getD (pos + name.length) 0 = 0 ∧ pos + name.length < blob.length
  | [], pos, hnz, h => by
    unfold tryMatchAux at h
    dsimp only at h
    split_ifs at h with h1 h2
    exact ⟨fun t ht => by simp at ht, by simpa using h2, by simpa using h1⟩
  | c :: rest, pos, hnz, h => by
    unfold tryMatchAux at h
    dsimp only at h
    split_ifs at h with h1 h2 h3
    · exact absurd h3 (hnz c (List.mem_cons_self _ _))
    · obtain ⟨hk3, hk1, hk2⟩ := tryMatchAux_matched blob rest (pos + 1)
        (fun x hx => hnz x (List.mem_cons_of_mem _ hx)) h
      refine ⟨?_, ?_, ?_⟩
      · intro t ht
        cases t with
        | zero => simpa using (show blob.getD pos 0 = c by omega)
        | succ t =>
          have hh := hk3 t (by simp only [List.length_cons] at ht; omega)
          rw [show pos + (t + 1) = pos + 1 + t by omega]
          simpa using hh
      · rw [show pos + (c :: rest).length = pos + 1 + rest.length by
          simp only [List.length_cons]; omega]
        exact hk1
      · simp only [List.length_cons]
        omega

/-- The skip loop never moves backwards. -/
lemma skipToNull_ge (blob : List Nat) (pos : Nat) : pos ≤ skipToNull blob pos :=
  Nat.le_add_right _ _

/-- A run of bytes satisfying the predicate stops no later than any index
holding a byte that fails it. -/
lemma takeWhile_length_le (l : List Nat) :
    ∀ k, l.getD k 0 = 0 → k < l.length →
      (l.takeWhile (fun c => c != 0)).length ≤ k := by
  induction l with
  | nil => intro k _ hk; simp at hk
  | cons a rest ih =>
    intro k hk hlen
    cases k with
    | zero =>
      simp only [List.getD_cons_zero] at hk
      simp [List.takeWhile_cons, hk]
    | succ k =>
      simp only [List.getD_cons_succ] at hk
      simp only [List.length_cons] at hlen
      by_cases ha : a = 0
      · simp [List.takeWhile_cons, ha]
      · rw [List.takeWhile_cons, if_pos (show (a != 0) = true by simpa using ha)]
        simp only [List.length_cons]
        exact Nat.succ_le_succ (ih k hk (by omega))

/-- The skip loop stops at or before any `NUL` byte at or after its
start. -/
lemma skipToNull_le (blob : List Nat) (pos q : Nat)
    (hq : blob.getD q 0 = 0) (hpq : pos ≤ q) (hqlen : q < blob.length) :
    skipToNull blob pos ≤ q := by
  unfold skipToNull
  have hd : (blob.drop pos).getD (q - pos) 0 = 0 := by
    rw [List.getD_eq_getD_get?, List.get?_eq_getElem?, List.getElem?_drop,
      show pos + (q - pos) = q by omega, ← List.get?_eq_getElem?,
      ← List.getD_eq_getD_get?]
    exact hq
  have hl : q - pos < (blob.drop pos).length := by
    simp only [List.length_drop]
    omega
  have := takeWhile_length_le (blob.drop pos) (q - pos) hd hl
  omega

/-- A candidate that matched a prefix of the (all nonzero) name cannot
have stepped across the `NUL` byte that precedes the stored copy. -/
lemma matched_prefix_no_null (blob name : List Nat) (strx k i : Nat)
    (hnz : ∀ c ∈ name, c ≠ 0)
    (hk3 : ∀ t, t < k → blob.getD (strx + t) 0 = name.getD t 0)
    (hkl : k ≤ name.length)
    (hstrx : strx ≤ i - 1) (hi1 : 1 ≤ i)
    (hnull : blob.getD (i - 1) 0 = 0)
    (hub : i - 1 < strx + k) : False := by
  have hti : i - 1 - strx < k := by omega
  have h5 := hk3 (i - 1 - strx) hti
  rw [show strx + (i - 1 - strx) = i - 1 by omega, hnull] at h5
  have hlt : i - 1 - strx < name.length := by omega
  have hmem : name.getD (i - 1 - strx) 0 ∈ name := by
    rw [List.getD_eq_getElem name 0 hlt]
    exact List.getElem_mem hlt
  exact hnz _ hmem h5.symm

/-- Main scan lemma: starting from any candidate at or before the stored
copy of the name (with the stored copy beginning at offset 4 or right
after a `NUL`), the scan returns some candidate at which the name (with
terminator) matches, provided the fuel dominates the remaining
distance. -/
lemma scan_finds_match (blob name : List Nat) (i : Nat)
    (h4i : 4 ≤ i)
    (hchars : ∀ t, t < name.length → blob.getD (i + t) 0 = name.getD t 0)
    (hterm : blob.getD (i + name.length) 0 = 0)
    (hin : i + name.length < blob.length)
    (hstart : i = 4 ∨ blob.getD (i - 1) 0 = 0)
    (hnz : ∀ c ∈ name, c ≠ 0) :
    ∀ (fuel strx : Nat), 4 ≤ strx → strx ≤ i → i + 1 ≤ fuel + strx →
      ∃ j, string_index_scan blob name fuel strx = j ∧ 4 ≤ j ∧
        tryMatchAux blob j name = .matched := by
  intro fuel
  induction fuel with
  | zero => intro strx h4s hsi hfu; omega
  | succ fuel ih =>
    intro strx h4s hsi hfu
    by_cases hei : strx = i
    · subst hei
      have hm := tryMatchAux_matched_of_stored blob name strx hchars hterm hin hnz
      exact ⟨strx, by simp only [string_index_scan, hm], h4s, hm⟩
    · have hsi' : strx < i := by omega
      have hnull : blob.getD (i - 1) 0 = 0 := by
        rcases hstart with h | h
        · exact absurd h4s (by omega)
        · exact h
      cases hstep : tryMatchAux blob strx name with
      | matched =>
        exact ⟨strx, by simp only [string_index_scan, hstep], h4s, hstep⟩
      | hitEnd =>
        exfalso
        obtain ⟨k, hk1, hk2, hk3⟩ := tryMatchAux_hitEnd blob name strx hstep
        exact matched_prefix_no_null blob name strx k i hnz hk3 hk1
          (by omega) (by omega) hnull (by omega)
      | mismatchAt q =>
        obtain ⟨k, hq, hk1, hk2, hk3⟩ := tryMatchAux_mismatch blob name strx q hstep
        have hqi : q ≤ i - 1 := by
          by_contra hcon
          exact matched_prefix_no_null blob name strx k i hnz hk3 hk1
            (by omega) (by omega) hnull (by omega)
        have hskip : skipToNull blob q ≤ i - 1 :=
          skipToNull_le blob q (i - 1) hnull hqi (by omega)
        have hge : q ≤ skipToNull blob q := skipToNull_ge blob q
        obtain ⟨j, hj, hj4, hjm⟩ :=
          ih (skipToNull blob q + 1) (by omega) (by omega) (by omega)
        refine ⟨j, ?_, hj4, hjm⟩
        simp only [string_index_scan, hstep]
        exact hj

/-- Reading the C string at a position where the name (all nonzero
bytes) is stored with its terminator returns exactly the name. -/
lemma readCString_eq (blob : List Nat) :
    ∀ (name : List Nat) (j : Nat),
      (∀ t, t < name.length → blob.getD (j + t) 0 = name.getD t 0) →
      blob.getD (j + name.length) 0 = 0 →
      j + name.length < blob.length →
      (∀ c ∈ name, c ≠ 0) →
      readCString blob j = name
  | [], j, hchars, hterm, hin, hnz => by
    unfold readCString
    simp only [List.length_nil, Nat.add_zero] at hterm hin
    rw [List.drop_eq_getElem_cons hin, List.takeWhile_cons]
    have h0 : blob[j] = 0 := by
      rw [← List.getD_eq_getElem blob 0 hin]
      exact hterm
    rw [if_neg (by simp [h0])]
  | c :: rest, j, hchars, hterm, hin, hnz => by
    unfold readCString
    simp only [List.length_cons] at hterm hin
    have hj : j < blob.length := by omega
    have hc : blob[j] = c := by
      have h := hchars 0 (by simp)
      rw [← List.getD_eq_getElem blob 0 hj]
      simpa using h
    rw [List.drop_eq_getElem_cons hj, List.takeWhile_cons, hc,
      if_pos (show (c != 0) = true by simpa using hnz c (List.mem_cons_self _ _))]
    have hrest : readCString blob (j + 1) = rest := by
      refine readCString_eq blob rest (j + 1) ?_ ?_ (by omega) ?_
      · intro t ht
        have h := hchars (t + 1) (by simp only [List.length_cons]; omega)
        rw [show j + (t + 1) = j + 1 + t by omega] at h
        simpa using h
      · rw [show j + 1 + rest.length = j + (rest.length + 1) by omega]
        exact hterm
      · exact fun x hx => hnz x (List.mem_cons_of_mem _ hx)
    unfold readCString at hrest
    rw [hrest]

/-- Claim C7 (amended): for every name (of nonzero bytes) stored as a
null-terminated string at a valid index of the string blob — at least 4,
with the terminator strictly inside the blob — that is additionally a
string start (index 4, or placed right after a `NUL` byte),
`macho_symtab_string` applied to the index `macho_symtab_string_index`
returns for that name yields a string equal to that name.  Unamended the
claim fails: a name stored mid-string (a suffix of a longer stored
string) is at a valid index per `macho_symtab_string`, but the scan only
restarts candidates after `NUL` bytes, returns 0, and the round trip
collapses to the `NULL` string. -/
theorem claim_C7_amended (st : symtab_command) (name : List Nat) (i : Nat)
    (h4 : 4 ≤ i)
    (hchars : ∀ t, t < name.length → st.strings.getD (i + t) 0 = name.getD t 0)
    (hterm : st.strings.getD (i + name.length) 0 = 0)
    (hin : i + name.length < st.strings.length)
    (hstart : i = 4 ∨ st.strings.getD (i - 1) 0 = 0)
    (hnz : ∀ c ∈ name, c ≠ 0) :
    macho_symtab_string st (macho_symtab_string_index st name) = some name := by
  obtain ⟨j, hj, hj4, hjm⟩ :=
    scan_finds_match st.strings name i h4 hchars hterm hin hstart hnz
      (st.strings.length + 1) 4 (le_refl 4) h4 (by omega)
  unfold macho_symtab_string_index
  rw [hj]
  obtain ⟨hc, ht, hb⟩ := tryMatchAux_matched st.strings name j hnz hjm
  unfold macho_symtab_string
  rw [if_neg (by push_neg; omega)]
  exact congrArg some (readCString_eq st.strings name j hc ht hb hnz)

/-- A string blob holding the single string `"ab"`; the name `"b"` is
stored null-terminated at index 5, a valid but mid-string index. -/
def suffixSymtab : symtab_command := ⟨[], [0, 0, 0, 0, 97, 98, 0]⟩

/-- Claim C7 counterexample: `"b"` is stored as a null-terminated string
at the valid index 5 (at least 4 and strictly inside the blob), yet the
index scan returns 0 — candidates only restart after `NUL` bytes — so
`macho_symtab_string` on the returned index yields `NULL`, not `"b"`,
refuting the round trip as stated. -/
theorem claim_C7_counterexample :
    ((4 : Nat) ≤ 5 ∧ 5 + [98].length < suffixSymtab.strings.length ∧
     (∀ t, t < [98].length → suffixSymtab.strings.getD (5 + t) 0 = [98].getD t 0) ∧
     suffixSymtab.strings.getD (5 + [98].length) 0 = 0) ∧
    macho_symtab_string suffixSymtab (macho_symtab_string_index suffixSymtab [98]) ≠
      some [98] := by
  refine ⟨⟨by omega, by decide, by decide, by decide⟩, by decide⟩

/-- Witness for the amended claim C7 at a concrete blob holding `"a"` at
index 4. -/
theorem claim_C7_witness :
    macho_symtab_string oneSymSymtab (macho_symtab_string_index oneSymSymtab [97]) =
      some [97] :=
  claim_C7_amended oneSymSymtab [97] 4 (le_refl 4) (by decide) (by decide)
    (by decide) (Or.inl rfl) (by decide)
